import Mathlib

/-!
# Verification of the dismissible-react-client batching core

Shallow embedding of the repository's `BatchScheduler`
(`src/src/types/dismissible.types.ts`), the auth utilities
(`src/src/utils/auth.utils.ts`) and the durable local cache helpers
(`src/unnamed/part_005`), together with theorems settling the spec claims.

JavaScript `Map` objects are modelled as association lists in insertion
order (`JsMap`), matching `Map.prototype.set` (update in place when the key
exists, append otherwise) and `Map` iteration order.  Promise settlement is
modelled by an explicit `Settlement` value per pending request; promise
identity is modelled by a numeric id allocated by the scheduler state.
-/

namespace Dismissible

/-- A JavaScript `Error` value (only the message is relevant here). -/
structure Error where
  message : String
deriving DecidableEq, Repr

/-- A value thrown by a JS computation: either a genuine `Error` instance
or some non-`Error` value (the code only distinguishes the two via
`instanceof Error`). -/
inductive Thrown where
  | err (e : Error)
  | nonError
deriving DecidableEq, Repr

/-- `error instanceof Error ? error : new Error("Batch request failed")`
from the `catch` block of `BatchScheduler.executeBatch`. -/
def Thrown.toBatchError : Thrown → Error
  | .err e => e
  | .nonError => ⟨"Batch request failed"⟩

/-- The `DismissibleItem` record of the data model. -/
structure DismissibleItem where
  itemId : String
  userId : String
  createdAt : String
  dismissedAt : Option String
deriving DecidableEq, Repr

/-! ## JavaScript `Map` model -/

/-- Association list in insertion order: the model of a JS `Map`. -/
abbrev JsMap (α β : Type) := List (α × β)

variable {α β : Type}

/-- `Map.prototype.get`: value at the first matching key, if any. -/
def mapGet [DecidableEq α] : JsMap α β → α → Option β
  | [], _ => none
  | (k, v) :: rest, key => if k = key then some v else mapGet rest key

/-- `Map.prototype.set`: update in place when the key exists, append
otherwise (preserving insertion order). -/
def mapSet [DecidableEq α] : JsMap α β → α → β → JsMap α β
  | [], key, val => [(key, val)]
  | (k, v) :: rest, key, val =>
    if k = key then (k, val) :: rest else (k, v) :: mapSet rest key val

/-- `Array.from(map.keys())`: keys in insertion order. -/
def mapKeys (m : JsMap α β) : List α := m.map Prod.fst

/-! ## Durable local cache (`src/unnamed/part_005`) -/

/-- The `CachedItem<T>` shape stored in `localStorage`: the cached data
together with the wall-clock write timestamp.  JSON round-tripping of a
well-formed entry is modelled as the identity. -/
structure CachedItem (T : Type) where
  data : T
  timestamp : Int
deriving DecidableEq, Repr

/-- `localStorage`, restricted to this module's keys: a key-value store of
well-formed cache entries. -/
abbrev Storage (T : Type) := JsMap String (CachedItem T)

/-- The key `` `${cachePrefix}_${id}` `` used by both helpers. -/
def cacheKey (cachePrefix id : String) : String := cachePrefix ++ "_" ++ id

/-- `setCachedItem`: stores `{ data: item, timestamp: Date.now() }` under
`` `${cachePrefix}_${id}` ``.  `now` is the value of `Date.now()` at the
call. -/
def setCachedItem {T : Type} (storage : Storage T) (id : String) (item : T)
    (cachePrefix : String) (now : Int) : Storage T :=
  mapSet storage (cacheKey cachePrefix id) ⟨item, now⟩

/-- `getCachedItem`: returns the cached data, or `none` when absent or
expired; an expired entry is removed.  `cacheExpiration` is the optional
max age in milliseconds; the JS guard is
`if (cacheExpiration && Date.now() - timestamp > cacheExpiration)`, where
`undefined` and `0` are both falsy, so a max age of `0` disables
expiration exactly like `undefined`.  Returns the result together with the
storage after the call. -/
def getCachedItem {T : Type} (storage : Storage T) (id : String)
    (cachePrefix : String) (cacheExpiration : Option Int) (now : Int) :
    Option T × Storage T :=
  let key := cacheKey cachePrefix id
  match mapGet storage key with
  | none => (none, storage)
  | some entry =>
    match cacheExpiration with
    | none => (some entry.data, storage)
    | some exp =>
      if exp ≠ 0 ∧ now - entry.timestamp > exp then
        (none, storage.filter (fun p => p.1 ≠ key))
      else
        (some entry.data, storage)

/-- `removeCachedItem`: deletes the entry for `` `${cachePrefix}_${id}` ``. -/
def removeCachedItem {T : Type} (storage : Storage T) (id : String)
    (cachePrefix : String) : Storage T :=
  storage.filter (fun p => p.1 ≠ cacheKey cachePrefix id)

/-! ## Auth utilities (`src/src/utils/auth.utils.ts`) -/

/-- The observable behaviour of a `jwt` function value: it either returns
(or resolves to) a string, or throws synchronously, or returns a promise
that rejects. -/
inductive JwtFnBehavior where
  | returns (s : String)
  | resolves (s : String)
  | throws (t : Thrown)
  | rejects (t : Thrown)
deriving DecidableEq, Repr

/-- A `JwtToken`: a static string or a (sync or async) function. -/
inductive JwtToken where
  | str (s : String)
  | fn (b : JwtFnBehavior)
deriving DecidableEq, Repr

/-- The combined effect of `jwt()` followed by `await Promise.resolve(...)`:
a string on success, a thrown value on sync throw or rejection. -/
def callJwtFn : JwtFnBehavior → Except Thrown String
  | .returns s => .ok s
  | .resolves s => .ok s
  | .throws t => .error t
  | .rejects t => .error t

/-- `resolveJwt`: a function value is called inside `try`/`catch` (the
`await` sits inside the `try`, so both sync throws and promise rejections
are caught and turned into `undefined`); a string resolves to itself and
`undefined` to `undefined`.  The result is the settlement of the returned
promise. -/
def resolveJwt : Option JwtToken → Except Thrown (Option String)
  | some (.fn b) =>
    match callJwtFn b with
    | .ok s => .ok (some s)
    | .error _ => .ok none
  | some (.str s) => .ok (some s)
  | none => .ok none

/-- The `AuthHeaders` object: an optional `Authorization` field. -/
structure AuthHeaders where
  authorization : Option String
deriving DecidableEq, Repr

/-- The empty headers object `{}`. -/
def AuthHeaders.empty : AuthHeaders := ⟨none⟩

/-- `getAuthHeaders`: `token ? { Authorization: `Bearer ${token}` } : {}`.
JS truthiness: `undefined` and the empty string are falsy. -/
def getAuthHeaders (jwt : Option JwtToken) : Except Thrown AuthHeaders :=
  match resolveJwt jwt with
  | .error t => .error t
  | .ok token =>
    match token with
    | some s => .ok (if s ≠ "" then ⟨some ("Bearer " ++ s)⟩ else AuthHeaders.empty)
    | none => .ok AuthHeaders.empty

/-! ## BatchScheduler (`src/src/types/dismissible.types.ts`) -/

/-- A pending request in the batch queue.  The `resolve`/`reject` pair of
the underlying promise is modelled by the promise id `pid`; settlement of
that promise is recorded explicitly by `executeBatch`. -/
structure PendingRequest where
  itemId : String
  pid : Nat
deriving DecidableEq, Repr

/-- The scheduler configuration after the constructor has applied
`maxBatchSize: config.maxBatchSize ?? 50`. -/
structure BatchConfig where
  userId : String
  baseUrl : String
  maxBatchSize : Nat
deriving DecidableEq, Repr

/-- The `BatchScheduler` constructor: spreads the config and defaults
`maxBatchSize` to 50 when absent (`??` is nullish coalescing, so an
explicit `0` is kept). -/
def mkBatchConfig (userId baseUrl : String) (maxBatchSize : Option Nat) :
    BatchConfig :=
  ⟨userId, baseUrl, maxBatchSize.getD 50⟩

/-- The scheduler's mutable state: the pending-request queue, the
`isScheduled` flag, the in-memory item cache, the in-flight promise map,
the next fresh promise id, and a count of `queueMicrotask` calls issued
(one per scheduled batch execution). -/
structure SchedulerState where
  pendingRequests : List PendingRequest
  isScheduled : Bool
  cache : JsMap String DismissibleItem
  inFlight : JsMap String Nat
  nextPid : Nat
  microtasks : Nat
deriving DecidableEq, Repr

/-- A scheduler state with nothing queued, cached or in flight. -/
def SchedulerState.initial : SchedulerState :=
  ⟨[], false, [], [], 0, 0⟩

/-- What a `getItem` call hands back to its caller: either a fresh
already-resolved promise carrying a cached item (`Promise.resolve(cached)`)
or a reference to a pending promise (newly created, or the shared in-flight
one). -/
inductive GetItemResult where
  | resolvedNow (item : DismissibleItem)
  | promiseRef (pid : Nat)
deriving DecidableEq, Repr

/-- `BatchScheduler.getItem`: cache check, then in-flight check, then
enqueue a new pending request, mark it in flight, and schedule a batch
execution unless one is already scheduled. -/
def getItem (s : SchedulerState) (itemId : String) :
    GetItemResult × SchedulerState :=
  match mapGet s.cache itemId with
  | some cached => (.resolvedNow cached, s)
  | none =>
    match mapGet s.inFlight itemId with
    | some pid => (.promiseRef pid, s)
    | none =>
      let pid := s.nextPid
      (.promiseRef pid,
        { pendingRequests := s.pendingRequests ++ [⟨itemId, pid⟩]
          isScheduled := true
          cache := s.cache
          inFlight := mapSet s.inFlight itemId pid
          nextPid := pid + 1
          microtasks := if s.isScheduled then s.microtasks else s.microtasks + 1 })

/-- `BatchScheduler.primeCache`: `this.cache.set(item.itemId, item)`. -/
def primeCache (s : SchedulerState) (item : DismissibleItem) : SchedulerState :=
  { s with cache := mapSet s.cache item.itemId item }

/-- `BatchScheduler.updateCache`: `this.cache.set(item.itemId, item)`. -/
def updateCache (s : SchedulerState) (item : DismissibleItem) : SchedulerState :=
  { s with cache := mapSet s.cache item.itemId item }

/-- `BatchScheduler.clearCache`: `this.cache.clear()`. -/
def clearCache (s : SchedulerState) : SchedulerState :=
  { s with cache := [] }

/-- A synchronous turn issuing one `getItem` per listed id, in order,
collecting the values returned to the callers. -/
def runTurn (s : SchedulerState) : List String → List GetItemResult × SchedulerState
  | [] => ([], s)
  | id :: ids =>
    let r := getItem s id
    let rest := runTurn r.2 ids
    (r.1 :: rest.1, rest.2)

/-! ### executeBatch -/

/-- One step of the dedup loop of `executeBatch`: append the request to its
id's group, or start a new group. -/
def insertReq (m : JsMap String (List PendingRequest)) (r : PendingRequest) :
    JsMap String (List PendingRequest) :=
  match mapGet m r.itemId with
  | some existing => mapSet m r.itemId (existing ++ [r])
  | none => mapSet m r.itemId [r]

/-- The `itemIdToRequests` map of `executeBatch`: requests grouped by id in
first-occurrence order, preserving request order within each group. -/
def buildIdMap (reqs : List PendingRequest) : JsMap String (List PendingRequest) :=
  reqs.foldl insertReq []

/-- `uniqueItemIds`: `Array.from(itemIdToRequests.keys())`. -/
def uniqueIdsOf (reqs : List PendingRequest) : List String :=
  mapKeys (buildIdMap reqs)

/-- The chunking loop of `executeBatch`:
`for (let i = 0; i < n; i += maxBatchSize) batches.push(slice(i, i + maxBatchSize))`.
With `maxBatchSize = 0` the JS loop would not terminate; the model returns
`[]` in that (never-configured) case to stay total. -/
def makeBatches (max : Nat) (ids : List String) : List (List String) :=
  if ids.isEmpty then []
  else if _h : max = 0 then []
  else ids.take max :: makeBatches max (ids.drop max)
termination_by ids.length
decreasing_by
  simp only [List.isEmpty_eq_true] at *
  have : 0 < ids.length := List.length_pos.mpr (by assumption)
  simp [List.length_drop]
  omega

/-- `itemsMap` (and the cache-update loop): index a flat item list by
`itemId`, later entries overwriting earlier ones. -/
def indexItems (start : JsMap String DismissibleItem)
    (items : List DismissibleItem) : JsMap String DismissibleItem :=
  items.foldl (fun m item => mapSet m item.itemId item) start

/-- `await Promise.all(batches.map(client.batchGetOrCreate(...)))`: all
chunk calls are issued; the combined promise resolves with the result list
when every chunk resolves, and rejects (with the first rejection) when any
chunk rejects. -/
def collectResults (respond : List String → Except Thrown (List DismissibleItem)) :
    List (List String) → Except Thrown (List (List DismissibleItem))
  | [] => .ok []
  | b :: bs =>
    match respond b with
    | .error t => .error t
    | .ok items =>
      match collectResults respond bs with
      | .error t => .error t
      | .ok rest => .ok (items :: rest)

/-- The `new Error(`Item ${itemId} not found in batch response`)` raised
for an id omitted from the flattened bulk response. -/
def missingError (itemId : String) : Error :=
  ⟨"Item " ++ itemId ++ " not found in batch response"⟩

/-- How one pending promise is settled. -/
inductive Settlement where
  | resolved (item : DismissibleItem)
  | rejected (e : Error)
deriving DecidableEq, Repr

/-- The settlement applied to every request of one id group on the success
path: resolve with the item when the response contains the id, reject with
`missingError` otherwise. -/
def settleOf (found : Option DismissibleItem) (itemId : String) : Settlement :=
  match found with
  | some item => .resolved item
  | none => .rejected (missingError itemId)

/-- The outcome of one `executeBatch` run: the bulk calls issued (one
payload per `batchGetOrCreate` call, in order), the settlements applied to
the captured pending requests (in invocation order), and the scheduler
state afterwards. -/
structure ExecResult where
  calls : List (List String)
  settlements : List (PendingRequest × Settlement)
  state : SchedulerState
deriving Repr

/-- Step 1 of `executeBatch`: reset `isScheduled` and snapshot-and-clear
the pending queue, atomically within one synchronous step. -/
def captureBatch (s : SchedulerState) : List PendingRequest × SchedulerState :=
  (s.pendingRequests, { s with isScheduled := false, pendingRequests := [] })

/-- `BatchScheduler.executeBatch`, parameterised by the behaviour of the
collaborators: `auth` is the settlement of `config.getAuthHeaders()` and
`respond` the settlement of `client.batchGetOrCreate` per chunk payload.
On the success path the flattened response is indexed and written into the
cache, then each id group is resolved or rejected per `settleOf`; on any
failure (auth or any chunk) every captured request is rejected with the
same batch error and the cache is untouched. -/
def executeBatch (s : SchedulerState) (cfg : BatchConfig)
    (auth : Except Thrown AuthHeaders)
    (respond : List String → Except Thrown (List DismissibleItem)) : ExecResult :=
  let cap := captureBatch s
  let requests := cap.1
  let s0 := cap.2
  if requests.isEmpty then ⟨[], [], s0⟩
  else
    let idMap := buildIdMap requests
    let batches := makeBatches cfg.maxBatchSize (mapKeys idMap)
    match auth with
    | .error t =>
      ⟨[], requests.map (fun r => (r, .rejected t.toBatchError)), s0⟩
    | .ok _ =>
      match collectResults respond batches with
      | .error t =>
        ⟨batches, requests.map (fun r => (r, .rejected t.toBatchError)), s0⟩
      | .ok results =>
        let allItems := results.flatten
        let itemsMap := indexItems [] allItems
        let settlements :=
          (idMap.map (fun g =>
            g.2.map (fun r => (r, settleOf (mapGet itemsMap g.1) g.1)))).flatten
        ⟨batches, settlements, { s0 with cache := indexItems s0.cache allItems }⟩

/-! ## Derived definitions and concrete fixtures -/

/-- All requests held in the groups of a dedup map, flattened. -/
def flattenGroups (m : JsMap String (List PendingRequest)) : List PendingRequest :=
  (m.map Prod.snd).flatten

/-- The chunk payloads one execution issues for a captured queue. -/
def batchesFor (cfg : BatchConfig) (reqs : List PendingRequest) :
    List (List String) :=
  makeBatches cfg.maxBatchSize (uniqueIdsOf reqs)

/-- The settlements of the success path (all chunks resolved), given the
captured queue and the flattened response items. -/
def successSettlements (reqs : List PendingRequest)
    (allItems : List DismissibleItem) : List (PendingRequest × Settlement) :=
  ((buildIdMap reqs).map (fun g =>
    g.2.map (fun r => (r, settleOf (mapGet (indexItems [] allItems) g.1) g.1)))).flatten

/-- Fixture: a server-created item for an id. -/
def mkItem (id : String) : DismissibleItem :=
  ⟨id, "user-1", "2024-01-01T00:00:00Z", none⟩

/-- Fixture: config with `maxBatchSize = 1`. -/
def cfgOne : BatchConfig :=
  mkBatchConfig "user-1" "https://api.example.com" (some 1)

/-- Fixture: config with `maxBatchSize = 2`. -/
def cfgTwo : BatchConfig :=
  mkBatchConfig "user-1" "https://api.example.com" (some 2)

/-- Fixture: a client that fetch-or-creates every requested id. -/
def respondAll : List String → Except Thrown (List DismissibleItem) :=
  fun ids => .ok (ids.map mkItem)

/-- Fixture: a client whose call for the chunk `["b"]` rejects and that
answers every other chunk. -/
def respondFailB : List String → Except Thrown (List DismissibleItem) :=
  fun ids =>
    if ids = ["b"] then .error (.err ⟨"network down"⟩)
    else .ok (ids.map mkItem)

/-- Fixture: a client that violates the contract by omitting id `"b"` from
its response. -/
def respondDropB : List String → Except Thrown (List DismissibleItem) :=
  fun ids => .ok ((ids.filter (fun i => i ≠ "b")).map mkItem)

/-- Fixture: a scheduler state whose captured queue holds requests for
`"a"` and `"b"`. -/
def queueAB : SchedulerState :=
  ⟨[⟨"a", 0⟩, ⟨"b", 1⟩], true, [], [("a", 0), ("b", 1)], 2, 1⟩

/-- Fixture: a scheduler state whose captured queue holds requests for
`"a"`, `"b"` and `"c"`. -/
def queueABC : SchedulerState :=
  ⟨[⟨"a", 0⟩, ⟨"b", 1⟩, ⟨"c", 2⟩], true, [], [("a", 0), ("b", 1), ("c", 2)], 3, 1⟩

/-! ## Lemmas about the `JsMap` model -/

@[simp] theorem mapKeys_nil : mapKeys ([] : JsMap α β) = [] := rfl

@[simp] theorem mapKeys_cons (p : α × β) (rest : JsMap α β) :
    mapKeys (p :: rest) = p.1 :: mapKeys rest := rfl

theorem mapGet_mapSet_self [DecidableEq α] (m : JsMap α β) (k : α) (v : β) :
    mapGet (mapSet m k v) k = some v := by
  induction m with
  | nil => simp [mapSet, mapGet]
  | cons p rest ih =>
    obtain ⟨a, b⟩ := p
    by_cases ha : a = k
    · simp [mapSet, ha, mapGet]
    · simpa [mapSet, ha, mapGet] using ih

theorem mapGet_mapSet_ne [DecidableEq α] (m : JsMap α β) (k k' : α) (v : β)
    (h : k' ≠ k) : mapGet (mapSet m k v) k' = mapGet m k' := by
  induction m with
  | nil => simp [mapSet, mapGet, Ne.symm h]
  | cons p rest ih =>
    obtain ⟨a, b⟩ := p
    by_cases ha : a = k
    · subst ha
      simp [mapSet, mapGet, Ne.symm h]
    · by_cases ha' : a = k'
      · subst ha'
        simp [mapSet, mapGet, ha, h]
      · simpa [mapSet, ha, mapGet, ha'] using ih

theorem mapSet_idem [DecidableEq α] (m : JsMap α β) (k : α) (v : β) :
    mapSet (mapSet m k v) k v = mapSet m k v := by
  induction m with
  | nil => simp [mapSet]
  | cons p rest ih =>
    obtain ⟨a, b⟩ := p
    by_cases ha : a = k
    · simp [mapSet, ha]
    · simp [mapSet, ha, ih]

theorem mapKeys_mapSet [DecidableEq α] (m : JsMap α β) (k : α) (v : β) :
    mapKeys (mapSet m k v) =
      if k ∈ mapKeys m then mapKeys m else mapKeys m ++ [k] := by
  induction m with
  | nil => simp [mapSet]
  | cons p rest ih =>
    obtain ⟨a, b⟩ := p
    by_cases ha : a = k
    · subst ha
      simp [mapSet]
    · simp only [mapSet, if_neg ha, mapKeys_cons, ih]
      by_cases hmem : k ∈ mapKeys rest
      · simp [hmem, Ne.symm ha]
      · simp [hmem, Ne.symm ha]

theorem mapGet_isSome_iff_mem [DecidableEq α] (m : JsMap α β) (k : α) :
    (mapGet m k).isSome ↔ k ∈ mapKeys m := by
  induction m with
  | nil => simp [mapGet]
  | cons p rest ih =>
    obtain ⟨a, b⟩ := p
    by_cases ha : a = k
    · simp [mapGet, ha]
    · simp [mapGet, ha, ih, Ne.symm ha]

theorem mapGet_eq_none_iff [DecidableEq α] (m : JsMap α β) (k : α) :
    mapGet m k = none ↔ k ∉ mapKeys m := by
  rw [← mapGet_isSome_iff_mem]
  cases mapGet m k <;> simp

/-! ## Lemmas about the dedup map of `executeBatch` -/

theorem mapGet_mem [DecidableEq α] (m : JsMap α β) (k : α) (v : β)
    (h : mapGet m k = some v) : (k, v) ∈ m := by
  induction m with
  | nil => simp [mapGet] at h
  | cons p rest ih =>
    obtain ⟨a, b⟩ := p
    by_cases ha : a = k
    · subst ha
      simp [mapGet] at h
      simp [h]
    · simp [mapGet, ha] at h
      exact List.mem_cons_of_mem _ (ih h)

theorem mem_mapSet [DecidableEq α] (m : JsMap α β) (k : α) (v : β) (g : α × β)
    (h : g ∈ mapSet m k v) : g ∈ m ∨ g = (k, v) := by
  induction m with
  | nil => simpa [mapSet] using h
  | cons p rest ih =>
    obtain ⟨a, b⟩ := p
    by_cases ha : a = k
    · subst ha
      simp [mapSet] at h
      rcases h with h | h
      · right; simp [h]
      · left; exact List.mem_cons_of_mem _ h
    · simp [mapSet, ha] at h
      rcases h with h | h
      · left; simp [h]
      · rcases ih h with h' | h'
        · left; exact List.mem_cons_of_mem _ h'
        · right; exact h'

theorem insertReq_groups (m : JsMap String (List PendingRequest))
    (q : PendingRequest) (hm : ∀ g ∈ m, ∀ r ∈ g.2, r.itemId = g.1) :
    ∀ g ∈ insertReq m q, ∀ r ∈ g.2, r.itemId = g.1 := by
  intro g hg r hr
  unfold insertReq at hg
  cases hget : mapGet m q.itemId with
  | some ex =>
    rw [hget] at hg
    rcases mem_mapSet _ _ _ _ hg with h | h
    · exact hm g h r hr
    · subst h
      simp at hr
      rcases hr with hr | hr
      · exact hm _ (mapGet_mem _ _ _ hget) r hr
      · simp [hr]
  | none =>
    rw [hget] at hg
    rcases mem_mapSet _ _ _ _ hg with h | h
    · exact hm g h r hr
    · subst h
      simp at hr
      simp [hr]

theorem foldl_insertReq_groups (reqs : List PendingRequest) :
    ∀ (m : JsMap String (List PendingRequest)),
      (∀ g ∈ m, ∀ r ∈ g.2, r.itemId = g.1) →
      ∀ g ∈ reqs.foldl insertReq m, ∀ r ∈ g.2, r.itemId = g.1 := by
  induction reqs with
  | nil => intro m hm; simpa using hm
  | cons q rest ih =>
    intro m hm
    exact ih (insertReq m q) (insertReq_groups m q hm)

theorem buildIdMap_groups (reqs : List PendingRequest) :
    ∀ g ∈ buildIdMap reqs, ∀ r ∈ g.2, r.itemId = g.1 :=
  foldl_insertReq_groups reqs [] (by simp)

theorem mem_mapKeys_insertReq (m : JsMap String (List PendingRequest))
    (q : PendingRequest) (k : String) :
    k ∈ mapKeys (insertReq m q) ↔ k ∈ mapKeys m ∨ k = q.itemId := by
  unfold insertReq
  cases hget : mapGet m q.itemId with
  | some ex =>
    rw [mapKeys_mapSet]
    have hmem : q.itemId ∈ mapKeys m :=
      (mapGet_isSome_iff_mem m q.itemId).mp (by simp [hget])
    simp only [if_pos hmem]
    constructor
    · exact Or.inl
    · rintro (h | h)
      · exact h
      · subst h; exact hmem
  | none =>
    rw [mapKeys_mapSet]
    have hmem : q.itemId ∉ mapKeys m := by
      rw [← mapGet_eq_none_iff] at *
      exact hget
    simp [if_neg hmem]

theorem mem_mapKeys_foldl_insertReq (reqs : List PendingRequest) :
    ∀ (m : JsMap String (List PendingRequest)) (k : String),
      k ∈ mapKeys (reqs.foldl insertReq m) ↔
        k ∈ mapKeys m ∨ k ∈ reqs.map (·.itemId) := by
  induction reqs with
  | nil => intro m k; simp
  | cons q rest ih =>
    intro m k
    simp only [List.foldl_cons, ih, mem_mapKeys_insertReq, List.map_cons,
      List.mem_cons]
    tauto

theorem mem_uniqueIdsOf (reqs : List PendingRequest) (k : String) :
    k ∈ uniqueIdsOf reqs ↔ k ∈ reqs.map (·.itemId) := by
  unfold uniqueIdsOf buildIdMap
  rw [mem_mapKeys_foldl_insertReq]
  simp

theorem mapKeys_insertReq_nodup (m : JsMap String (List PendingRequest))
    (q : PendingRequest) (h : (mapKeys m).Nodup) :
    (mapKeys (insertReq m q)).Nodup := by
  unfold insertReq
  cases hget : mapGet m q.itemId with
  | some ex =>
    rw [mapKeys_mapSet]
    have hmem : q.itemId ∈ mapKeys m :=
      (mapGet_isSome_iff_mem m q.itemId).mp (by simp [hget])
    simpa [if_pos hmem] using h
  | none =>
    rw [mapKeys_mapSet]
    have hmem : q.itemId ∉ mapKeys m := (mapGet_eq_none_iff m q.itemId).mp hget
    rw [if_neg hmem]
    refine List.Nodup.append h (List.nodup_singleton _) ?_
    intro x hx hx'
    simp at hx'
    exact hmem (hx' ▸ hx)

theorem uniqueIdsOf_nodup (reqs : List PendingRequest) :
    (uniqueIdsOf reqs).Nodup := by
  unfold uniqueIdsOf buildIdMap
  have : ∀ (m : JsMap String (List PendingRequest)), (mapKeys m).Nodup →
      (mapKeys (reqs.foldl insertReq m)).Nodup := by
    induction reqs with
    | nil => intro m hm; simpa using hm
    | cons q rest ih =>
      intro m hm
      exact ih (insertReq m q) (mapKeys_insertReq_nodup m q hm)
  exact this [] (by simp)

theorem mapKeys_foldl_insertReq_of_nodup (reqs : List PendingRequest) :
    ∀ (m : JsMap String (List PendingRequest)),
      (reqs.map (·.itemId)).Nodup →
      (∀ r ∈ reqs, r.itemId ∉ mapKeys m) →
      mapKeys (reqs.foldl insertReq m) = mapKeys m ++ reqs.map (·.itemId) := by
  induction reqs with
  | nil => intro m _ _; simp
  | cons q rest ih =>
    intro m hd hdisj
    simp only [List.map_cons, List.nodup_cons] at hd
    have hq : q.itemId ∉ mapKeys m := hdisj q (by simp)
    have hins : insertReq m q = mapSet m q.itemId [q] := by
      unfold insertReq
      rw [(mapGet_eq_none_iff m q.itemId).mpr hq]
    have hkeys : mapKeys (insertReq m q) = mapKeys m ++ [q.itemId] := by
      rw [hins, mapKeys_mapSet, if_neg hq]
    simp only [List.foldl_cons]
    rw [ih (insertReq m q) hd.2]
    · rw [hkeys]
      simp
    · intro r hr
      rw [hkeys]
      simp only [List.mem_append, List.mem_singleton]
      rintro (h | h)
      · exact hdisj r (List.mem_cons_of_mem _ hr) h
      · exact hd.1 (h ▸ List.mem_map_of_mem (·.itemId) hr)

theorem uniqueIdsOf_of_nodup (reqs : List PendingRequest)
    (hd : (reqs.map (·.itemId)).Nodup) :
    uniqueIdsOf reqs = reqs.map (·.itemId) := by
  unfold uniqueIdsOf buildIdMap
  rw [mapKeys_foldl_insertReq_of_nodup reqs [] hd (by simp)]
  simp

@[simp] theorem flattenGroups_nil : flattenGroups [] = [] := rfl

@[simp] theorem flattenGroups_cons (p : String × List PendingRequest)
    (rest : JsMap String (List PendingRequest)) :
    flattenGroups (p :: rest) = p.2 ++ flattenGroups rest := rfl

theorem flattenGroups_mapSet_none (m : JsMap String (List PendingRequest))
    (k : String) (w : List PendingRequest) (h : mapGet m k = none) :
    flattenGroups (mapSet m k w) = flattenGroups m ++ w := by
  induction m with
  | nil => simp [mapSet]
  | cons p rest ih =>
    obtain ⟨a, g⟩ := p
    by_cases ha : a = k
    · simp [mapGet, ha] at h
    · simp [mapGet, ha] at h
      simp [mapSet, ha, ih h]

theorem count_flattenGroups_mapSet_some (m : JsMap String (List PendingRequest))
    (k : String) (ex w : List PendingRequest) (r : PendingRequest)
    (h : mapGet m k = some ex) :
    (flattenGroups (mapSet m k w)).count r + ex.count r
      = (flattenGroups m).count r + w.count r := by
  induction m with
  | nil => simp [mapGet] at h
  | cons p rest ih =>
    obtain ⟨a, g⟩ := p
    by_cases ha : a = k
    · subst ha
      simp [mapGet] at h
      subst h
      simp [mapSet, List.count_append]
      omega
    · simp [mapGet, ha] at h
      have := ih h
      simp [mapSet, ha, List.count_append]
      omega

theorem count_flattenGroups_insertReq (m : JsMap String (List PendingRequest))
    (q r : PendingRequest) :
    (flattenGroups (insertReq m q)).count r
      = (flattenGroups m).count r + [q].count r := by
  unfold insertReq
  cases hget : mapGet m q.itemId with
  | some ex =>
    have := count_flattenGroups_mapSet_some m q.itemId ex (ex ++ [q]) r hget
    simp [List.count_append] at this ⊢
    omega
  | none =>
    rw [flattenGroups_mapSet_none m q.itemId [q] hget, List.count_append]

theorem count_flattenGroups_foldl (reqs : List PendingRequest) :
    ∀ (m : JsMap String (List PendingRequest)) (r : PendingRequest),
      (flattenGroups (reqs.foldl insertReq m)).count r
        = (flattenGroups m).count r + reqs.count r := by
  induction reqs with
  | nil => intro m r; simp
  | cons q rest ih =>
    intro m r
    simp only [List.foldl_cons]
    rw [ih (insertReq m q) r, count_flattenGroups_insertReq m q r]
    simp [List.count_cons]
    omega

theorem count_flattenGroups_buildIdMap (reqs : List PendingRequest)
    (r : PendingRequest) :
    (flattenGroups (buildIdMap reqs)).count r = reqs.count r := by
  unfold buildIdMap
  rw [count_flattenGroups_foldl reqs [] r]
  simp

theorem mem_flattenGroups_buildIdMap (reqs : List PendingRequest)
    (r : PendingRequest) (h : r ∈ reqs) :
    r ∈ flattenGroups (buildIdMap reqs) := by
  have : 0 < (flattenGroups (buildIdMap reqs)).count r := by
    rw [count_flattenGroups_buildIdMap]
    exact List.count_pos_iff.mpr h
  exact List.count_pos_iff.mp this

/-! ## Lemmas about chunking -/

theorem makeBatches_flatten (max : Nat) (hmax : 0 < max) :
    ∀ (ids : List String), (makeBatches max ids).flatten = ids := by
  suffices h : ∀ (n : Nat) (ids : List String), ids.length = n →
      (makeBatches max ids).flatten = ids by
    intro ids; exact h ids.length ids rfl
  intro n
  induction n using Nat.strong_induction_on with
  | _ n ih =>
    intro ids hn
    rw [makeBatches]
    by_cases he : ids.isEmpty
    · simp [he, List.isEmpty_iff.mp he]
    · rw [if_neg he, dif_neg (Nat.pos_iff_ne_zero.mp hmax)]
      have hlen : 0 < ids.length :=
        List.length_pos.mpr (by simpa [List.isEmpty_iff] using he)
      have hdrop : (ids.drop max).length < n := by
        rw [← hn]
        simp [List.length_drop]
        omega
      rw [List.flatten_cons, ih _ hdrop (ids.drop max) rfl]
      exact List.take_append_drop max ids

theorem makeBatches_chunk_le (max : Nat) (hmax : 0 < max) :
    ∀ (ids : List String) (c : List String), c ∈ makeBatches max ids →
      c.length ≤ max := by
  suffices h : ∀ (n : Nat) (ids : List String), ids.length = n →
      ∀ c ∈ makeBatches max ids, c.length ≤ max by
    intro ids; exact h ids.length ids rfl
  intro n
  induction n using Nat.strong_induction_on with
  | _ n ih =>
    intro ids hn c hc
    rw [makeBatches] at hc
    by_cases he : ids.isEmpty
    · simp [he] at hc
    · rw [if_neg he, dif_neg (Nat.pos_iff_ne_zero.mp hmax)] at hc
      rcases List.mem_cons.mp hc with h | h
      · subst h
        exact List.length_take_le max ids
      · have hlen : 0 < ids.length :=
          List.length_pos.mpr (by simpa [List.isEmpty_iff] using he)
        have hdrop : (ids.drop max).length < n := by
          rw [← hn]
          simp [List.length_drop]
          omega
        exact ih _ hdrop (ids.drop max) rfl c h

theorem makeBatches_length (max : Nat) (hmax : 0 < max) :
    ∀ (ids : List String), ids ≠ [] →
      (makeBatches max ids).length = (ids.length + max - 1) / max := by
  suffices h : ∀ (n : Nat) (ids : List String), ids.length = n → ids ≠ [] →
      (makeBatches max ids).length = (ids.length + max - 1) / max by
    intro ids; exact h ids.length ids rfl
  intro n
  induction n using Nat.strong_induction_on with
  | _ n ih =>
    intro ids hn hne
    rw [makeBatches]
    rw [if_neg (by simpa [List.isEmpty_iff] using hne),
      dif_neg (Nat.pos_iff_ne_zero.mp hmax)]
    have hlen : 0 < ids.length := List.length_pos.mpr hne
    by_cases hle : ids.length ≤ max
    · have hdropnil : ids.drop max = [] := List.drop_eq_nil_of_le hle
      rw [hdropnil]
      rw [makeBatches]
      simp only [List.isEmpty_nil, if_pos rfl]
      have : (ids.length + max - 1) / max = 1 := by
        refine Nat.div_eq_of_lt_le (by omega) (by omega)
      simp [this]
    · push_neg at hle
      have hdrop : (ids.drop max).length < n := by
        rw [← hn]
        simp [List.length_drop]
        omega
      have hdropne : ids.drop max ≠ [] := by
        intro h
        have := congrArg List.length h
        simp [List.length_drop] at this
        omega
      rw [List.length_cons, ih _ hdrop (ids.drop max) rfl hdropne]
      simp only [List.length_drop]
      have : ids.length + max - 1 = (ids.length - max + max - 1) + max := by omega
      rw [this, Nat.add_div_right _ hmax]

theorem count_flatten_makeBatches (max : Nat) (hmax : 0 < max)
    (ids : List String) (k : String) :
    ((makeBatches max ids).flatten).count k = ids.count k := by
  rw [makeBatches_flatten max hmax ids]

/-! ## Lemmas about `indexItems` -/

theorem mapGet_indexItems_isSome (items : List DismissibleItem) :
    ∀ (start : JsMap String DismissibleItem) (k : String),
      (mapGet start k).isSome →
        (mapGet (indexItems start items) k).isSome := by
  induction items with
  | nil => intro start k h; simpa [indexItems] using h
  | cons item rest ih =>
    intro start k h
    have : (mapGet (mapSet start item.itemId item) k).isSome := by
      by_cases hk : k = item.itemId
      · subst hk
        simp [mapGet_mapSet_self]
      · rw [mapGet_mapSet_ne start item.itemId k item hk]
        exact h
    simpa [indexItems] using ih (mapSet start item.itemId item) k this

/-! ## Branch lemmas for `executeBatch` -/

theorem executeBatch_empty (s : SchedulerState) (cfg : BatchConfig)
    (auth : Except Thrown AuthHeaders)
    (respond : List String → Except Thrown (List DismissibleItem))
    (h : s.pendingRequests = []) :
    executeBatch s cfg auth respond = ⟨[], [], (captureBatch s).2⟩ := by
  simp [executeBatch, captureBatch, h]

theorem executeBatch_authError (s : SchedulerState) (cfg : BatchConfig)
    (t : Thrown)
    (respond : List String → Except Thrown (List DismissibleItem))
    (h : s.pendingRequests ≠ []) :
    executeBatch s cfg (.error t) respond =
      ⟨[], s.pendingRequests.map (fun r => (r, .rejected t.toBatchError)),
        (captureBatch s).2⟩ := by
  simp [executeBatch, captureBatch, h]

theorem executeBatch_chunkError (s : SchedulerState) (cfg : BatchConfig)
    (hdrs : AuthHeaders)
    (respond : List String → Except Thrown (List DismissibleItem))
    (t : Thrown) (h : s.pendingRequests ≠ [])
    (hc : collectResults respond (batchesFor cfg s.pendingRequests) = .error t) :
    executeBatch s cfg (.ok hdrs) respond =
      ⟨batchesFor cfg s.pendingRequests,
        s.pendingRequests.map (fun r => (r, .rejected t.toBatchError)),
        (captureBatch s).2⟩ := by
  unfold executeBatch batchesFor uniqueIdsOf
  simp only [captureBatch]
  rw [if_neg (by simpa [List.isEmpty_iff] using h)]
  unfold batchesFor uniqueIdsOf at hc
  simp only [hc]

theorem executeBatch_success (s : SchedulerState) (cfg : BatchConfig)
    (hdrs : AuthHeaders)
    (respond : List String → Except Thrown (List DismissibleItem))
    (results : List (List DismissibleItem)) (h : s.pendingRequests ≠ [])
    (hc : collectResults respond (batchesFor cfg s.pendingRequests) = .ok results) :
    executeBatch s cfg (.ok hdrs) respond =
      ⟨batchesFor cfg s.pendingRequests,
        successSettlements s.pendingRequests results.flatten,
        { (captureBatch s).2 with
            cache := indexItems (captureBatch s).2.cache results.flatten }⟩ := by
  unfold executeBatch batchesFor uniqueIdsOf successSettlements
  simp only [captureBatch]
  rw [if_neg (by simpa [List.isEmpty_iff] using h)]
  unfold batchesFor uniqueIdsOf at hc
  simp only [hc]

/-! ## Lemmas about `getItem` and `runTurn` -/

theorem getItem_cached (s : SchedulerState) (id : String)
    (item : DismissibleItem) (h : mapGet s.cache id = some item) :
    getItem s id = (.resolvedNow item, s) := by
  simp [getItem, h]

theorem getItem_inFlight (s : SchedulerState) (id : String) (pid : Nat)
    (hc : mapGet s.cache id = none) (hf : mapGet s.inFlight id = some pid) :
    getItem s id = (.promiseRef pid, s) := by
  simp [getItem, hc, hf]

theorem getItem_fresh (s : SchedulerState) (id : String)
    (hc : mapGet s.cache id = none) (hf : mapGet s.inFlight id = none) :
    getItem s id =
      (.promiseRef s.nextPid,
        { pendingRequests := s.pendingRequests ++ [⟨id, s.nextPid⟩]
          isScheduled := true
          cache := s.cache
          inFlight := mapSet s.inFlight id s.nextPid
          nextPid := s.nextPid + 1
          microtasks := if s.isScheduled then s.microtasks else s.microtasks + 1 }) := by
  simp [getItem, hc, hf]

/-- Running a turn of `getItem` calls for distinct, uncached, not-in-flight
ids appends exactly one pending request per id (in call order), leaves the
cache unchanged, marks every id in flight, sets `isScheduled`, and queues
exactly one batch-execution microtask when none was scheduled. -/
theorem runTurn_fresh (ids : List String) :
    ∀ (s : SchedulerState), ids.Nodup →
      (∀ id ∈ ids, mapGet s.cache id = none) →
      (∀ id ∈ ids, mapGet s.inFlight id = none) →
      ((runTurn s ids).2.pendingRequests.map (·.itemId)
          = s.pendingRequests.map (·.itemId) ++ ids)
      ∧ (runTurn s ids).2.cache = s.cache
      ∧ (runTurn s ids).2.isScheduled = (if ids = [] then s.isScheduled else true)
      ∧ (runTurn s ids).2.microtasks
          = s.microtasks + (if ids ≠ [] ∧ s.isScheduled = false then 1 else 0) := by
  induction ids with
  | nil => intro s _ _ _; simp [runTurn]
  | cons id rest ih =>
    intro s hnodup hc hf
    have hc0 : mapGet s.cache id = none := hc id (by simp)
    have hf0 : mapGet s.inFlight id = none := hf id (by simp)
    simp only [runTurn, getItem_fresh s id hc0 hf0]
    set s1 : SchedulerState :=
      { pendingRequests := s.pendingRequests ++ [⟨id, s.nextPid⟩]
        isScheduled := true
        cache := s.cache
        inFlight := mapSet s.inFlight id s.nextPid
        nextPid := s.nextPid + 1
        microtasks := if s.isScheduled then s.microtasks else s.microtasks + 1 }
      with hs1
    simp only [List.nodup_cons] at hnodup
    have hrest := ih s1 hnodup.2
      (by
        intro id' hid'
        show mapGet s.cache id' = none
        exact hc id' (by simp [hid']))
      (by
        intro id' hid'
        show mapGet (mapSet s.inFlight id s.nextPid) id' = none
        rw [mapGet_mapSet_ne s.inFlight id id' s.nextPid
          (by intro h; exact hnodup.1 (h ▸ hid'))]
        exact hf id' (by simp [hid']))
    refine ⟨?_, ?_, ?_, ?_⟩
    · rw [hrest.1]
      simp [hs1]
    · rw [hrest.2.1]
    · rw [hrest.2.2.1]
      by_cases hrn : rest = [] <;> simp [hrn, hs1]
    · rw [hrest.2.2.2]
      by_cases hsc : s.isScheduled <;> simp [hs1, hsc]

/-! ## Settlement lemmas -/

theorem successSettlements_map_fst (reqs : List PendingRequest)
    (allItems : List DismissibleItem) :
    (successSettlements reqs allItems).map Prod.fst
      = flattenGroups (buildIdMap reqs) := by
  unfold successSettlements flattenGroups
  rw [List.map_flatten]
  congr 1
  rw [List.map_map]
  apply List.map_congr_left
  intro g _
  simp [Function.comp_def]

theorem executeBatch_settlements_count (s : SchedulerState) (cfg : BatchConfig)
    (auth : Except Thrown AuthHeaders)
    (respond : List String → Except Thrown (List DismissibleItem))
    (r : PendingRequest) :
    ((executeBatch s cfg auth respond).settlements.map Prod.fst).count r
      = s.pendingRequests.count r := by
  by_cases he : s.pendingRequests = []
  · rw [executeBatch_empty s cfg auth respond he, he]
    simp
  · cases auth with
    | error t =>
      rw [executeBatch_authError s cfg t respond he]
      simp [List.map_map, Function.comp_def]
    | ok hdrs =>
      cases hcr : collectResults respond (batchesFor cfg s.pendingRequests) with
      | error t =>
        rw [executeBatch_chunkError s cfg hdrs respond t he hcr]
        simp [List.map_map, Function.comp_def]
      | ok results =>
        rw [executeBatch_success s cfg hdrs respond results he hcr]
        simp only [successSettlements_map_fst]
        exact count_flattenGroups_buildIdMap s.pendingRequests r

theorem executeBatch_settlements_perm (s : SchedulerState) (cfg : BatchConfig)
    (auth : Except Thrown AuthHeaders)
    (respond : List String → Except Thrown (List DismissibleItem)) :
    ((executeBatch s cfg auth respond).settlements.map Prod.fst).Perm
      s.pendingRequests :=
  List.perm_iff_count.mpr
    (fun r => executeBatch_settlements_count s cfg auth respond r)

theorem mem_successSettlements (reqs : List PendingRequest)
    (allItems : List DismissibleItem) (r : PendingRequest) (h : r ∈ reqs) :
    (r, settleOf (mapGet (indexItems [] allItems) r.itemId) r.itemId)
      ∈ successSettlements reqs allItems := by
  have hmem : r ∈ flattenGroups (buildIdMap reqs) :=
    mem_flattenGroups_buildIdMap reqs r h
  unfold flattenGroups at hmem
  rw [List.mem_flatten] at hmem
  obtain ⟨l, hl, hrl⟩ := hmem
  rw [List.mem_map] at hl
  obtain ⟨g, hg, hgl⟩ := hl
  have hkey : r.itemId = g.1 := buildIdMap_groups reqs g hg r (hgl ▸ hrl)
  unfold successSettlements
  rw [List.mem_flatten]
  refine ⟨g.2.map (fun q => (q, settleOf (mapGet (indexItems [] allItems) g.1) g.1)),
    List.mem_map_of_mem _ hg, ?_⟩
  rw [List.mem_map]
  exact ⟨r, hgl ▸ hrl, by rw [hkey]⟩

/-- The bulk calls issued by an execution do not depend on the client's
responses: they are the chunks of the captured unique-id list (provided the
auth headers resolved). -/
theorem executeBatch_calls (s : SchedulerState) (cfg : BatchConfig)
    (hdrs : AuthHeaders)
    (respond : List String → Except Thrown (List DismissibleItem))
    (h : s.pendingRequests ≠ []) :
    (executeBatch s cfg (.ok hdrs) respond).calls
      = batchesFor cfg s.pendingRequests := by
  cases hcr : collectResults respond (batchesFor cfg s.pendingRequests) with
  | error t => rw [executeBatch_chunkError s cfg hdrs respond t h hcr]
  | ok results => rw [executeBatch_success s cfg hdrs respond results h hcr]

/-- The cache after an execution: unchanged, or extended with the fetched
items of a fully-successful execution. -/
theorem executeBatch_cache_cases (s : SchedulerState) (cfg : BatchConfig)
    (auth : Except Thrown AuthHeaders)
    (respond : List String → Except Thrown (List DismissibleItem)) :
    (executeBatch s cfg auth respond).state.cache = s.cache ∨
      ∃ items, (executeBatch s cfg auth respond).state.cache
        = indexItems s.cache items := by
  by_cases he : s.pendingRequests = []
  · rw [executeBatch_empty s cfg auth respond he]
    left; rfl
  · cases auth with
    | error t =>
      rw [executeBatch_authError s cfg t respond he]
      left; rfl
    | ok hdrs =>
      cases hcr : collectResults respond (batchesFor cfg s.pendingRequests) with
      | error t =>
        rw [executeBatch_chunkError s cfg hdrs respond t he hcr]
        left; rfl
      | ok results =>
        rw [executeBatch_success s cfg hdrs respond results he hcr]
        right; exact ⟨results.flatten, rfl⟩

theorem executeBatch_cache_mono (s : SchedulerState) (cfg : BatchConfig)
    (auth : Except Thrown AuthHeaders)
    (respond : List String → Except Thrown (List DismissibleItem))
    (k : String) (h : (mapGet s.cache k).isSome) :
    (mapGet (executeBatch s cfg auth respond).state.cache k).isSome := by
  rcases executeBatch_cache_cases s cfg auth respond with hc | ⟨items, hc⟩
  · rw [hc]; exact h
  · rw [hc]; exact mapGet_indexItems_isSome items s.cache k h

theorem runTurn_cache (ids : List String) :
    ∀ (s : SchedulerState), (runTurn s ids).2.cache = s.cache := by
  induction ids with
  | nil => intro s; rfl
  | cons id rest ih =>
    intro s
    show (runTurn (getItem s id).2 rest).2.cache = s.cache
    rw [ih]
    unfold getItem
    cases mapGet s.cache id with
    | some cached => rfl
    | none =>
      cases mapGet s.inFlight id with
      | some pid => rfl
      | none => rfl

/-! ## Claim theorems -/

/-- C7: `primeCache(item)` and `updateCache(item)` have identical effect:
each sets the in-memory cache entry keyed by `item.itemId` to `item`
(overwriting any existing entry), leaves every other cache entry, the
pending-request queue and the rest of the scheduler state unchanged, and
both are idempotent. -/
theorem C7_primeCache_updateCache (s : SchedulerState) (item : DismissibleItem) :
    primeCache s item = updateCache s item
    ∧ mapGet (primeCache s item).cache item.itemId = some item
    ∧ (∀ k, k ≠ item.itemId →
        mapGet (primeCache s item).cache k = mapGet s.cache k)
    ∧ (primeCache s item).pendingRequests = s.pendingRequests
    ∧ (primeCache s item).inFlight = s.inFlight
    ∧ (primeCache s item).isScheduled = s.isScheduled
    ∧ primeCache (primeCache s item) item = primeCache s item
    ∧ updateCache (updateCache s item) item = updateCache s item := by
  refine ⟨rfl, mapGet_mapSet_self _ _ _,
    fun k hk => mapGet_mapSet_ne _ _ _ _ hk, rfl, rfl, rfl, ?_, ?_⟩
  · show ({ primeCache s item with
      cache := mapSet (primeCache s item).cache item.itemId item } = _)
    simp [primeCache, mapSet_idem]
  · show ({ updateCache s item with
      cache := mapSet (updateCache s item).cache item.itemId item } = _)
    simp [updateCache, mapSet_idem]

/-- Witness for C7 at a concrete scheduler state and item. -/
theorem C7_primeCache_updateCache_witness :
    (("a" : String) ≠ "b")
    ∧ mapGet (primeCache ⟨[], false, [("a", ⟨"a", "u", "t1", none⟩)], [], 0, 0⟩
        ⟨"b", "u", "t2", none⟩).cache "a" = some ⟨"a", "u", "t1", none⟩ := by
  refine ⟨by decide, ?_⟩
  rw [(C7_primeCache_updateCache
    ⟨[], false, [("a", ⟨"a", "u", "t1", none⟩)], [], 0, 0⟩
    ⟨"b", "u", "t2", none⟩).2.2.1 "a" (by decide)]
  decide

/-- C8 (amended): `setCachedItem` stores `{data, timestamp: now}` under the
key `` `${cachePrefix}_${id}` ``; `getCachedItem` with no max age returns
the stored data regardless of age; with a configured *nonzero* max age it
returns `null` and removes the entry when the entry is older than the max
age, and returns the stored data otherwise; a configured max age of `0` is
falsy in JS and behaves like no configured max age. -/
theorem C8_durable_cache {T : Type} [DecidableEq T] (storage : Storage T)
    (id cachePrefix : String) (item : T) (now : Int) (entry : CachedItem T)
    (hget : mapGet storage (cacheKey cachePrefix id) = some entry) :
    setCachedItem storage id item cachePrefix now
        = mapSet storage (cachePrefix ++ "_" ++ id) ⟨item, now⟩
    ∧ mapGet (setCachedItem storage id item cachePrefix now)
        (cachePrefix ++ "_" ++ id) = some ⟨item, now⟩
    ∧ getCachedItem storage id cachePrefix none now = (some entry.data, storage)
    ∧ (∀ exp : Int, exp ≠ 0 → now - entry.timestamp > exp →
        getCachedItem storage id cachePrefix (some exp) now
          = (none, removeCachedItem storage id cachePrefix))
    ∧ (∀ exp : Int, exp ≠ 0 → now - entry.timestamp ≤ exp →
        getCachedItem storage id cachePrefix (some exp) now
          = (some entry.data, storage))
    ∧ getCachedItem storage id cachePrefix (some 0) now
        = (some entry.data, storage) := by
  refine ⟨rfl, mapGet_mapSet_self _ _ _, ?_, ?_, ?_, ?_⟩
  · unfold getCachedItem
    simp [hget]
  · intro exp hexp hage
    unfold getCachedItem removeCachedItem
    simp only [hget]
    rw [if_pos ⟨hexp, hage⟩]
  · intro exp hexp hage
    unfold getCachedItem
    simp only [hget]
    rw [if_neg (by push_neg; intro _; omega)]
  · unfold getCachedItem
    simp [hget]

/-- Witness for C8 (amended) at a concrete storage and entry. -/
theorem C8_durable_cache_witness :
    mapGet [("p_i", (⟨⟨"i", "u", "t", none⟩, 10⟩ : CachedItem DismissibleItem))]
        (cacheKey "p" "i") = some ⟨⟨"i", "u", "t", none⟩, 10⟩
    ∧ ((3 : Int) ≠ 0 ∧ (15 : Int) - 10 > 3)
    ∧ getCachedItem [("p_i", (⟨⟨"i", "u", "t", none⟩, 10⟩ : CachedItem DismissibleItem))]
        "i" "p" (some 3) 15
        = (none, removeCachedItem
            [("p_i", (⟨⟨"i", "u", "t", none⟩, 10⟩ : CachedItem DismissibleItem))] "i" "p") := by
  refine ⟨by decide, ⟨by decide, by decide⟩, ?_⟩
  exact (C8_durable_cache
    [("p_i", (⟨⟨"i", "u", "t", none⟩, 10⟩ : CachedItem DismissibleItem))]
    "i" "p" ⟨"i", "u", "t", none⟩ 15 ⟨⟨"i", "u", "t", none⟩, 10⟩
    (by decide)).2.2.2.1 3 (by decide) (by decide)

/-- Counterexample to C8 as stated: with a *configured* max age of `0`
milliseconds and an entry of age `5 > 0`, the claim demands `null` plus
removal, but the code's `if (cacheExpiration && ...)` guard treats the
configured `0` as falsy and returns the stored data, leaving the entry in
place. -/
theorem C8_counterexample :
    ((5 : Int) - 0 > 0)
    ∧ getCachedItem
        [("dismissible_u-i", (⟨⟨"i", "u", "t", none⟩, 0⟩ : CachedItem DismissibleItem))]
        "u-i" "dismissible" (some 0) 5
      = (some ⟨"i", "u", "t", none⟩,
          [("dismissible_u-i", (⟨⟨"i", "u", "t", none⟩, 0⟩ : CachedItem DismissibleItem))])
    ∧ getCachedItem
        [("dismissible_u-i", (⟨⟨"i", "u", "t", none⟩, 0⟩ : CachedItem DismissibleItem))]
        "u-i" "dismissible" (some 0) 5
      ≠ (none, removeCachedItem
          [("dismissible_u-i", (⟨⟨"i", "u", "t", none⟩, 0⟩ : CachedItem DismissibleItem))]
          "u-i" "dismissible") := by
  refine ⟨by decide, ?_, ?_⟩ <;> decide

/-- C9: `resolveJwt` and `getAuthHeaders` never reject for any `jwt`
input: a string resolves to itself, `undefined` to `undefined`, and a
function that throws synchronously or returns a rejecting promise resolves
to `undefined`; `getAuthHeaders` yields `{ Authorization: "Bearer <token>" }`
exactly when a (truthy, i.e. nonempty) token was resolved and `{}`
otherwise, so an auth-token failure degrades to anonymous headers. -/
theorem C9_auth_never_rejects (jwt : Option JwtToken) :
    (∃ v, resolveJwt jwt = .ok v
      ∧ ∃ h, getAuthHeaders jwt = .ok h
        ∧ ((∃ tok, v = some tok ∧ tok ≠ "" ∧ h = ⟨some ("Bearer " ++ tok)⟩)
            ∨ ((v = none ∨ v = some "") ∧ h = AuthHeaders.empty)))
    ∧ (∀ str, jwt = some (.str str) → resolveJwt jwt = .ok (some str))
    ∧ (jwt = none → resolveJwt jwt = .ok none)
    ∧ (∀ b t, jwt = some (.fn b) → callJwtFn b = .error t →
        resolveJwt jwt = .ok none ∧ getAuthHeaders jwt = .ok AuthHeaders.empty) := by
  refine ⟨?_, ?_, ?_, ?_⟩
  · match jwt with
    | none => exact ⟨none, rfl, AuthHeaders.empty, rfl, Or.inr ⟨Or.inl rfl, rfl⟩⟩
    | some (.str s) =>
      by_cases hs : s = ""
      · subst hs
        exact ⟨some "", rfl, AuthHeaders.empty, rfl, Or.inr ⟨Or.inr rfl, rfl⟩⟩
      · refine ⟨some s, rfl, ⟨some ("Bearer " ++ s)⟩, ?_, Or.inl ⟨s, rfl, hs, rfl⟩⟩
        simp [getAuthHeaders, resolveJwt, hs]
    | some (.fn b) =>
      cases hb : callJwtFn b with
      | ok s =>
        by_cases hs : s = ""
        · subst hs
          refine ⟨some "", ?_, AuthHeaders.empty, ?_, Or.inr ⟨Or.inr rfl, rfl⟩⟩
          · simp [resolveJwt, hb]
          · simp [getAuthHeaders, resolveJwt, hb]
        · refine ⟨some s, ?_, ⟨some ("Bearer " ++ s)⟩, ?_, Or.inl ⟨s, rfl, hs, rfl⟩⟩
          · simp [resolveJwt, hb]
          · simp [getAuthHeaders, resolveJwt, hb, hs]
      | error t =>
        refine ⟨none, ?_, AuthHeaders.empty, ?_, Or.inr ⟨Or.inl rfl, rfl⟩⟩
        · simp [resolveJwt, hb]
        · simp [getAuthHeaders, resolveJwt, hb]
  · intro str h
    subst h
    rfl
  · intro h
    subst h
    rfl
  · intro b t h hb
    subst h
    constructor
    · simp [resolveJwt, hb]
    · simp [getAuthHeaders, resolveJwt, hb]

/-- Witness for C9: a `jwt` function whose promise rejects yields
`undefined` and anonymous headers. -/
theorem C9_auth_never_rejects_witness :
    resolveJwt (some (.fn (.rejects (.err ⟨"Token fetch failed"⟩)))) = .ok none
    ∧ getAuthHeaders (some (.fn (.rejects (.err ⟨"Token fetch failed"⟩))))
        = .ok AuthHeaders.empty :=
  (C9_auth_never_rejects (some (.fn (.rejects (.err ⟨"Token fetch failed"⟩))))).2.2.2
    (.rejects (.err ⟨"Token fetch failed"⟩)) (.err ⟨"Token fetch failed"⟩) rfl rfl

theorem batchesFor_nil (cfg : BatchConfig) :
    batchesFor cfg ([] : List PendingRequest) = [] := by
  unfold batchesFor
  rw [show uniqueIdsOf ([] : List PendingRequest) = [] from rfl, makeBatches]
  simp

theorem batchesFor_queueAB :
    batchesFor cfgOne queueAB.pendingRequests = [["a"], ["b"]] := by
  unfold batchesFor
  rw [show uniqueIdsOf queueAB.pendingRequests = ["a", "b"] from by decide]
  simp [makeBatches, cfgOne, mkBatchConfig]

theorem batchesFor_queueABC :
    batchesFor cfgTwo queueABC.pendingRequests = [["a", "b"], ["c"]] := by
  unfold batchesFor
  rw [show uniqueIdsOf queueABC.pendingRequests = ["a", "b", "c"] from by decide]
  simp [makeBatches, cfgTwo, mkBatchConfig]

/-- C3: for an id in the in-memory cache, `getItem` returns the cached
item as an already-resolved promise and leaves the scheduler state
untouched (no pending request, no scheduling, no microtask); the cache
entry survives any further turn of `getItem` calls, any batch execution
and any priming, and only `clearCache` empties the cache. -/
theorem C3_cache_short_circuit (s : SchedulerState) (id : String)
    (item : DismissibleItem) (h : mapGet s.cache id = some item) :
    getItem s id = (.resolvedNow item, s)
    ∧ (∀ ids, (runTurn s ids).2.cache = s.cache)
    ∧ (∀ cfg auth respond,
        (mapGet (executeBatch s cfg auth respond).state.cache id).isSome)
    ∧ (∀ item' : DismissibleItem,
        (mapGet (primeCache s item').cache id).isSome
        ∧ (mapGet (updateCache s item').cache id).isSome)
    ∧ (clearCache s).cache = [] := by
  refine ⟨getItem_cached s id item h, fun ids => runTurn_cache ids s,
    fun cfg auth respond =>
      executeBatch_cache_mono s cfg auth respond id (by simp [h]), ?_, rfl⟩
  intro item'
  constructor <;>
  · show (mapGet (mapSet s.cache item'.itemId item') id).isSome
    by_cases hid : id = item'.itemId
    · subst hid
      simp [mapGet_mapSet_self]
    · rw [mapGet_mapSet_ne _ _ _ _ hid]
      simp [h]

/-- Witness for C3 at a concrete cached state. -/
theorem C3_cache_short_circuit_witness :
    getItem ⟨[], false, [("a", mkItem "a")], [], 0, 0⟩ "a"
      = (.resolvedNow (mkItem "a"), ⟨[], false, [("a", mkItem "a")], [], 0, 0⟩) :=
  (C3_cache_short_circuit ⟨[], false, [("a", mkItem "a")], [], 0, 0⟩ "a"
    (mkItem "a") (by decide)).1

/-- C4: if auth-header resolution rejects, or any chunk call of the
execution rejects, then every pending request captured by that execution —
across all chunks — is rejected with the same batch error, and no caller's
promise resolves. -/
theorem C4_uniform_batch_failure (s : SchedulerState) (cfg : BatchConfig)
    (respond : List String → Except Thrown (List DismissibleItem)) :
    (∀ t : Thrown,
      (executeBatch s cfg (.error t) respond).settlements
        = s.pendingRequests.map (fun r => (r, .rejected t.toBatchError))
      ∧ ∀ p ∈ (executeBatch s cfg (.error t) respond).settlements,
          ∀ item, p.2 ≠ Settlement.resolved item)
    ∧ (∀ (hdrs : AuthHeaders) (t : Thrown),
        collectResults respond (batchesFor cfg s.pendingRequests) = .error t →
        (executeBatch s cfg (.ok hdrs) respond).settlements
          = s.pendingRequests.map (fun r => (r, .rejected t.toBatchError))
        ∧ ∀ p ∈ (executeBatch s cfg (.ok hdrs) respond).settlements,
            ∀ item, p.2 ≠ Settlement.resolved item) := by
  constructor
  · intro t
    by_cases he : s.pendingRequests = []
    · rw [executeBatch_empty _ _ _ _ he, he]
      exact ⟨rfl, by simp⟩
    · rw [executeBatch_authError _ _ _ _ he]
      refine ⟨rfl, ?_⟩
      intro p hp item
      rw [List.mem_map] at hp
      obtain ⟨r, _, hr⟩ := hp
      rw [← hr]
      simp
  · intro hdrs t hc
    by_cases he : s.pendingRequests = []
    · exfalso
      rw [he, batchesFor_nil] at hc
      simp [collectResults] at hc
    · rw [executeBatch_chunkError _ _ _ _ _ he hc]
      refine ⟨rfl, ?_⟩
      intro p hp item
      rw [List.mem_map] at hp
      obtain ⟨r, _, hr⟩ := hp
      rw [← hr]
      simp

/-- Witness for C4: two chunks, the first of which succeeds and the second
rejects; both callers are rejected with the same error. -/
theorem C4_uniform_batch_failure_witness :
    collectResults respondFailB (batchesFor cfgOne queueAB.pendingRequests)
      = .error (.err ⟨"network down"⟩)
    ∧ (executeBatch queueAB cfgOne (.ok AuthHeaders.empty) respondFailB).settlements
      = [(⟨"a", 0⟩, .rejected ⟨"network down"⟩),
         (⟨"b", 1⟩, .rejected ⟨"network down"⟩)] := by
  have hc : collectResults respondFailB (batchesFor cfgOne queueAB.pendingRequests)
      = .error (.err ⟨"network down"⟩) := by
    rw [batchesFor_queueAB]
    rfl
  refine ⟨hc, ?_⟩
  rw [((C4_uniform_batch_failure queueAB cfgOne respondFailB).2 AuthHeaders.empty
    (.err ⟨"network down"⟩) hc).1]
  decide

/-- C5: when all chunk calls succeed but the flattened response omits a
requested id, every pending request for an omitted id is rejected with an
error naming that id, while every pending request for an id present in the
response is resolved with its item. -/
theorem C5_missing_item_isolation (s : SchedulerState) (cfg : BatchConfig)
    (hdrs : AuthHeaders)
    (respond : List String → Except Thrown (List DismissibleItem))
    (results : List (List DismissibleItem))
    (hne : s.pendingRequests ≠ [])
    (hc : collectResults respond (batchesFor cfg s.pendingRequests) = .ok results) :
    (∀ r ∈ s.pendingRequests, ∀ item,
        mapGet (indexItems [] results.flatten) r.itemId = some item →
        (r, Settlement.resolved item)
          ∈ (executeBatch s cfg (.ok hdrs) respond).settlements)
    ∧ (∀ r ∈ s.pendingRequests,
        mapGet (indexItems [] results.flatten) r.itemId = none →
        (r, Settlement.rejected ⟨"Item " ++ r.itemId ++ " not found in batch response"⟩)
          ∈ (executeBatch s cfg (.ok hdrs) respond).settlements) := by
  rw [executeBatch_success s cfg hdrs respond results hne hc]
  constructor
  · intro r hr item hfound
    have hmem := mem_successSettlements s.pendingRequests results.flatten r hr
    rw [hfound] at hmem
    exact hmem
  · intro r hr hnone
    have hmem := mem_successSettlements s.pendingRequests results.flatten r hr
    rw [hnone] at hmem
    simpa [settleOf, missingError] using hmem

/-- Witness for C5: `{a, b, c}` requested, the response holds only
`{a, c}`; the callers for `a` and `c` resolve and the caller for `b` is
rejected with an error naming `b`. -/
theorem C5_missing_item_isolation_witness :
    queueABC.pendingRequests ≠ []
    ∧ collectResults respondDropB (batchesFor cfgTwo queueABC.pendingRequests)
        = .ok [[mkItem "a"], [mkItem "c"]]
    ∧ (⟨"a", 0⟩, Settlement.resolved (mkItem "a"))
        ∈ (executeBatch queueABC cfgTwo (.ok AuthHeaders.empty) respondDropB).settlements
    ∧ (⟨"b", 1⟩, Settlement.rejected ⟨"Item " ++ "b" ++ " not found in batch response"⟩)
        ∈ (executeBatch queueABC cfgTwo (.ok AuthHeaders.empty) respondDropB).settlements
    ∧ (⟨"c", 2⟩, Settlement.resolved (mkItem "c"))
        ∈ (executeBatch queueABC cfgTwo (.ok AuthHeaders.empty) respondDropB).settlements := by
  have hc : collectResults respondDropB (batchesFor cfgTwo queueABC.pendingRequests)
      = .ok [[mkItem "a"], [mkItem "c"]] := by
    rw [batchesFor_queueABC]
    rfl
  have H := C5_missing_item_isolation queueABC cfgTwo AuthHeaders.empty respondDropB
    [[mkItem "a"], [mkItem "c"]] (by decide) hc
  refine ⟨by decide, hc, ?_, ?_, ?_⟩
  · exact H.1 ⟨"a", 0⟩ (by decide) (mkItem "a") (by decide)
  · exact H.2 ⟨"b", 1⟩ (by decide) (by decide)
  · exact H.1 ⟨"c", 2⟩ (by decide) (mkItem "c") (by decide)

/-- C6: every pending request captured by an execution is settled exactly
once on every path of `executeBatch` (the settled requests are a
permutation of the captured queue, so a request with a duplicate-free
queue settles exactly once), and every settlement either resolves with an
item or rejects with an `Error` value. -/
theorem C6_settled_exactly_once (s : SchedulerState) (cfg : BatchConfig)
    (auth : Except Thrown AuthHeaders)
    (respond : List String → Except Thrown (List DismissibleItem)) :
    ((executeBatch s cfg auth respond).settlements.map Prod.fst).Perm
        s.pendingRequests
    ∧ (s.pendingRequests.Nodup → ∀ r ∈ s.pendingRequests,
        ((executeBatch s cfg auth respond).settlements.map Prod.fst).count r = 1)
    ∧ (∀ p ∈ (executeBatch s cfg auth respond).settlements,
        (∃ item, p.2 = Settlement.resolved item)
          ∨ ∃ e : Error, p.2 = Settlement.rejected e) := by
  refine ⟨executeBatch_settlements_perm s cfg auth respond, ?_, ?_⟩
  · intro hnd r hr
    rw [executeBatch_settlements_count]
    exact List.count_eq_one_of_mem hnd hr
  · intro p _
    cases p.2 with
    | resolved item => exact Or.inl ⟨item, rfl⟩
    | rejected e => exact Or.inr ⟨e, rfl⟩

/-- Witness for C6 at a concrete two-request queue. -/
theorem C6_settled_exactly_once_witness :
    queueAB.pendingRequests.Nodup
    ∧ ((executeBatch queueAB cfgOne (.ok AuthHeaders.empty)
          respondAll).settlements.map Prod.fst).count ⟨"a", 0⟩ = 1 :=
  ⟨by decide,
    (C6_settled_exactly_once queueAB cfgOne (.ok AuthHeaders.empty)
      respondAll).2.1 (by decide) ⟨"a", 0⟩ (by decide)⟩

/-- C10: a failed batch execution leaves the in-memory cache unchanged,
both when the auth headers reject and when any chunk call rejects — even
if sibling chunk calls succeeded. -/
theorem C10_failed_batch_cache_unchanged (s : SchedulerState)
    (cfg : BatchConfig)
    (respond : List String → Except Thrown (List DismissibleItem)) :
    (∀ t : Thrown,
      (executeBatch s cfg (.error t) respond).state.cache = s.cache)
    ∧ (∀ (hdrs : AuthHeaders) (t : Thrown),
        collectResults respond (batchesFor cfg s.pendingRequests) = .error t →
        (executeBatch s cfg (.ok hdrs) respond).state.cache = s.cache) := by
  constructor
  · intro t
    by_cases he : s.pendingRequests = []
    · rw [executeBatch_empty _ _ _ _ he]
      rfl
    · rw [executeBatch_authError _ _ _ _ he]
      rfl
  · intro hdrs t hc
    by_cases he : s.pendingRequests = []
    · exfalso
      rw [he, batchesFor_nil] at hc
      simp [collectResults] at hc
    · rw [executeBatch_chunkError _ _ _ _ _ he hc]
      rfl

/-- Witness for C10: the first chunk succeeds, the second rejects, and the
cache is unchanged (here: still empty). -/
theorem C10_failed_batch_cache_unchanged_witness :
    collectResults respondFailB (batchesFor cfgOne queueAB.pendingRequests)
      = .error (.err ⟨"network down"⟩)
    ∧ (executeBatch queueAB cfgOne (.ok AuthHeaders.empty)
        respondFailB).state.cache = queueAB.cache := by
  have hc : collectResults respondFailB (batchesFor cfgOne queueAB.pendingRequests)
      = .error (.err ⟨"network down"⟩) := by
    rw [batchesFor_queueAB]
    rfl
  exact ⟨hc, (C10_failed_batch_cache_unchanged queueAB cfgOne respondFailB).2
    AuthHeaders.empty (.err ⟨"network down"⟩) hc⟩

theorem runTurn_replicate_inFlight (k : Nat) :
    ∀ (s : SchedulerState) (id : String) (pid : Nat),
      mapGet s.cache id = none → mapGet s.inFlight id = some pid →
      runTurn s (List.replicate k id)
        = (List.replicate k (.promiseRef pid), s) := by
  induction k with
  | zero => intro s id pid _ _; rfl
  | succ n ih =>
    intro s id pid hc hf
    rw [List.replicate_succ]
    simp only [runTurn, getItem_inFlight s id pid hc hf]
    rw [ih s id pid hc hf]
    simp [List.replicate_succ]

/-- C1: N ≥ 1 distinct uncached, not-in-flight ids requested in one
synchronous turn schedule exactly one batch execution, and that execution
issues exactly one bulk call per consecutive chunk of at most
`maxBatchSize` ids — `⌈N / maxBatchSize⌉` calls in total, whose payloads
concatenate to the ids in first-request order; the constructor defaults
`maxBatchSize` to 50 when the config omits it. -/
theorem C1_coalescing_chunked_calls (s : SchedulerState) (cfg : BatchConfig)
    (ids : List String) (hdrs : AuthHeaders)
    (respond : List String → Except Thrown (List DismissibleItem))
    (hne : ids ≠ []) (hnodup : ids.Nodup)
    (hcache : ∀ id ∈ ids, mapGet s.cache id = none)
    (hflight : ∀ id ∈ ids, mapGet s.inFlight id = none)
    (hq : s.pendingRequests = []) (hsched : s.isScheduled = false)
    (hmax : 0 < cfg.maxBatchSize) :
    (runTurn s ids).2.microtasks = s.microtasks + 1
    ∧ (executeBatch (runTurn s ids).2 cfg (.ok hdrs) respond).calls
        = makeBatches cfg.maxBatchSize ids
    ∧ (executeBatch (runTurn s ids).2 cfg (.ok hdrs) respond).calls.length
        = (ids.length + cfg.maxBatchSize - 1) / cfg.maxBatchSize
    ∧ (∀ c ∈ (executeBatch (runTurn s ids).2 cfg (.ok hdrs) respond).calls,
        c.length ≤ cfg.maxBatchSize)
    ∧ ((executeBatch (runTurn s ids).2 cfg (.ok hdrs) respond).calls).flatten
        = ids
    ∧ (mkBatchConfig cfg.userId cfg.baseUrl none).maxBatchSize = 50 := by
  have H := runTurn_fresh ids s hnodup hcache hflight
  have hmap : (runTurn s ids).2.pendingRequests.map (·.itemId) = ids := by
    rw [H.1, hq]
    simp
  have hpne : (runTurn s ids).2.pendingRequests ≠ [] := by
    intro h
    rw [h] at hmap
    simp at hmap
    exact hne hmap
  have huniq : uniqueIdsOf (runTurn s ids).2.pendingRequests = ids := by
    rw [uniqueIdsOf_of_nodup _ (by rw [hmap]; exact hnodup), hmap]
  have hcalls : (executeBatch (runTurn s ids).2 cfg (.ok hdrs) respond).calls
      = makeBatches cfg.maxBatchSize ids := by
    rw [executeBatch_calls _ _ _ _ hpne]
    unfold batchesFor
    rw [huniq]
  refine ⟨?_, hcalls, ?_, ?_, ?_, rfl⟩
  · rw [H.2.2.2, hsched]
    simp [hne]
  · rw [hcalls]
    exact makeBatches_length _ hmax ids hne
  · intro c hc
    rw [hcalls] at hc
    exact makeBatches_chunk_le _ hmax ids c hc
  · rw [hcalls]
    exact makeBatches_flatten _ hmax ids

/-- Witness for C1: three fresh ids, `maxBatchSize = 2`, one scheduled
execution, two bulk calls chunked `["a","b"] / ["c"]`. -/
theorem C1_coalescing_chunked_calls_witness :
    (runTurn SchedulerState.initial ["a", "b", "c"]).2.microtasks = 0 + 1
    ∧ (executeBatch (runTurn SchedulerState.initial ["a", "b", "c"]).2 cfgTwo
        (.ok AuthHeaders.empty) respondAll).calls = [["a", "b"], ["c"]]
    ∧ (executeBatch (runTurn SchedulerState.initial ["a", "b", "c"]).2 cfgTwo
        (.ok AuthHeaders.empty) respondAll).calls.length = 2 := by
  have H := C1_coalescing_chunked_calls SchedulerState.initial cfgTwo
    ["a", "b", "c"] AuthHeaders.empty respondAll
    (by decide) (by decide) (by decide) (by decide) rfl rfl (by decide)
  refine ⟨H.1, ?_, ?_⟩
  · rw [H.2.1]
    simp [makeBatches, cfgTwo, mkBatchConfig]
  · rw [H.2.2.1]
    decide

/-- C2: an id requested K ≥ 1 times in the same turn hands every caller
the same promise; only one pending request is enqueued, the id occurs
exactly once in the unique-id list and in the concatenated bulk payloads;
a `getItem` issued while the batch is awaiting its response still returns
that same promise; and the shared request is settled exactly once by the
execution, so all callers observe the same item or the same error. -/
theorem C2_dedup_shared_promise (s : SchedulerState) (cfg : BatchConfig)
    (id : String) (k : Nat) (hk : 1 ≤ k)
    (hc : mapGet s.cache id = none) (hf : mapGet s.inFlight id = none)
    (hq : s.pendingRequests = []) (hmax : 0 < cfg.maxBatchSize) :
    (runTurn s (List.replicate k id)).1
        = List.replicate k (GetItemResult.promiseRef s.nextPid)
    ∧ (runTurn s (List.replicate k id)).2 = (getItem s id).2
    ∧ (getItem s id).2.pendingRequests = [⟨id, s.nextPid⟩]
    ∧ uniqueIdsOf (getItem s id).2.pendingRequests = [id]
    ∧ ((batchesFor cfg (getItem s id).2.pendingRequests).flatten).count id = 1
    ∧ getItem (captureBatch (getItem s id).2).2 id
        = (.promiseRef s.nextPid, (captureBatch (getItem s id).2).2)
    ∧ ∀ auth respond,
        ((executeBatch (getItem s id).2 cfg auth respond).settlements.map
          Prod.fst).count ⟨id, s.nextPid⟩ = 1 := by
  obtain ⟨n, rfl⟩ : ∃ n, k = n + 1 := ⟨k - 1, by omega⟩
  have hfresh := getItem_fresh s id hc hf
  have hpend : (getItem s id).2.pendingRequests = [⟨id, s.nextPid⟩] := by
    rw [hfresh, hq]
    rfl
  have hcache1 : (getItem s id).2.cache = s.cache := by rw [hfresh]
  have hflight1 : (getItem s id).2.inFlight = mapSet s.inFlight id s.nextPid := by
    rw [hfresh]
  have hc1 : mapGet (getItem s id).2.cache id = none := by
    rw [hcache1]; exact hc
  have hf1 : mapGet (getItem s id).2.inFlight id = some s.nextPid := by
    rw [hflight1]; exact mapGet_mapSet_self _ _ _
  have hstable := runTurn_replicate_inFlight n (getItem s id).2 id s.nextPid hc1 hf1
  have h1 : (getItem s id).1 = .promiseRef s.nextPid := by rw [hfresh]
  have hrun : runTurn s (List.replicate (n + 1) id)
      = (List.replicate (n + 1) (GetItemResult.promiseRef s.nextPid),
          (getItem s id).2) := by
    rw [List.replicate_succ]
    simp only [runTurn]
    rw [hstable, h1]
    simp [List.replicate_succ]
  have huniq : uniqueIdsOf (getItem s id).2.pendingRequests = [id] := by
    rw [hpend]
    rfl
  refine ⟨by rw [hrun], by rw [hrun], hpend, huniq, ?_, ?_, ?_⟩
  · unfold batchesFor
    rw [huniq, makeBatches_flatten _ hmax]
    simp
  · exact getItem_inFlight _ id s.nextPid hc1 hf1
  · intro auth respond
    rw [executeBatch_settlements_count, hpend]
    simp

/-- Witness for C2: three same-tick requests for `"x"` on a fresh
scheduler all receive promise 0, and the queue holds one request. -/
theorem C2_dedup_shared_promise_witness :
    (runTurn SchedulerState.initial (List.replicate 3 "x")).1
        = List.replicate 3 (GetItemResult.promiseRef 0)
    ∧ (getItem SchedulerState.initial "x").2.pendingRequests = [⟨"x", 0⟩]
    ∧ uniqueIdsOf (getItem SchedulerState.initial "x").2.pendingRequests
        = ["x"] := by
  have H := C2_dedup_shared_promise SchedulerState.initial cfgTwo "x" 3
    (by decide) (by decide) (by decide) rfl (by decide)
  exact ⟨H.1, H.2.2.1, H.2.2.2.1⟩

end Dismissible
